import Mathlib

/-!
Verification of the Vietnamese IME core engine (gonhanh.org).

The engine pipeline is translated from src/core/src/engine/mod.rs and the
character composer from src/core/src/data/chars.rs.  The repository snapshot
does not include the key table, the buffer, the input-method tables, the
phonology module, the validator or the shortcut table (only their callers);
those definitions are modelled from the specification and carry a
doc comment saying so.
-/

namespace Gonhanh

/-! ## Key codes (modelled)

Modelled from the spec: keycodes are opaque 16-bit identifiers chosen by the
host; here letters A..Z are 0..25, digits 0..9 are 26..35, and the word-break
and backspace keys get codes of their own. -/

def KA : Nat := 0
def KB : Nat := 1
def KC : Nat := 2
def KD : Nat := 3
def KE : Nat := 4
def KF : Nat := 5
def KG : Nat := 6
def KH : Nat := 7
def KI : Nat := 8
def KJ : Nat := 9
def KK : Nat := 10
def KL : Nat := 11
def KM : Nat := 12
def KN : Nat := 13
def KO : Nat := 14
def KP : Nat := 15
def KQ : Nat := 16
def KR : Nat := 17
def KS : Nat := 18
def KT : Nat := 19
def KU : Nat := 20
def KV : Nat := 21
def KW : Nat := 22
def KX : Nat := 23
def KY : Nat := 24
def KZ : Nat := 25
def KN0 : Nat := 26
def KN1 : Nat := 27
def KN2 : Nat := 28
def KN3 : Nat := 29
def KN4 : Nat := 30
def KN5 : Nat := 31
def KN6 : Nat := 32
def KN7 : Nat := 33
def KN8 : Nat := 34
def KN9 : Nat := 35
def KSPACE : Nat := 36
def KTAB : Nat := 37
def KENTER : Nat := 38
def KDELETE : Nat := 39

/-- Modelled from the spec (key table, §4.1): letters are A-Z and the digits
(the buffer contains only letter keys: A-Z, digits). -/
def is_letter (k : Nat) : Bool := k < 36

/-- Modelled from the spec (key table, §4.1): the vowels are A, E, I, O, U, Y. -/
def is_vowel (k : Nat) : Bool :=
  k == KA || k == KE || k == KI || k == KO || k == KU || k == KY

/-- Modelled from the spec (key table, §4.1): consonant = letter and not vowel. -/
def is_consonant (k : Nat) : Bool := is_letter k && !is_vowel k

/-- Modelled from the spec (key table, §4.1): word breaks are space, tab,
enter (and punctuation, not given keycodes here). -/
def is_break (k : Nat) : Bool := k == KSPACE || k == KTAB || k == KENTER

/-- Translated from `key_to_char` in src/core/src/engine/mod.rs: letters map to
their ASCII char (uppercased when caps), digits map to their digit char with
caps ignored, everything else to nothing. -/
def key_to_char (key : Nat) (caps : Bool) : Option Char :=
  if key < 26 then
    some (if caps then Char.ofNat (65 + key) else Char.ofNat (97 + key))
  else if key < 36 then some (Char.ofNat (48 + (key - 26)))
  else none

/-! ## Character composer (translated from src/core/src/data/chars.rs) -/

/-- Tone modifier constants from chars.rs: NONE = 0, CIRCUMFLEX = 1, HORN = 2
(horn also encodes the breve on `a`). -/
def toneNONE : Nat := 0
def toneCIRCUMFLEX : Nat := 1
def toneHORN : Nat := 2
def markNONE : Nat := 0
def markSAC : Nat := 1
def markHUYEN : Nat := 2
def markHOI : Nat := 3
def markNGA : Nat := 4
def markNANG : Nat := 5

/-- The 12x5 vowel lookup table from chars.rs: base char with its sắc, huyền,
hỏi, ngã, nặng variants. -/
def VOWEL_TABLE : List (Char × List Char) :=
  [ ('a', ['á', 'à', 'ả', 'ã', 'ạ']),
    ('ă', ['ắ', 'ằ', 'ẳ', 'ẵ', 'ặ']),
    ('â', ['ấ', 'ầ', 'ẩ', 'ẫ', 'ậ']),
    ('e', ['é', 'è', 'ẻ', 'ẽ', 'ẹ']),
    ('ê', ['ế', 'ề', 'ể', 'ễ', 'ệ']),
    ('i', ['í', 'ì', 'ỉ', 'ĩ', 'ị']),
    ('o', ['ó', 'ò', 'ỏ', 'õ', 'ọ']),
    ('ô', ['ố', 'ồ', 'ổ', 'ỗ', 'ộ']),
    ('ơ', ['ớ', 'ờ', 'ở', 'ỡ', 'ợ']),
    ('u', ['ú', 'ù', 'ủ', 'ũ', 'ụ']),
    ('ư', ['ứ', 'ừ', 'ử', 'ữ', 'ự']),
    ('y', ['ý', 'ỳ', 'ỷ', 'ỹ', 'ỵ']) ]

/-- Translated from `get_base_char` in chars.rs. -/
def get_base_char (key : Nat) (t : Nat) : Option Char :=
  if key == KA then some (if t == 1 then 'â' else if t == 2 then 'ă' else 'a')
  else if key == KE then some (if t == 1 then 'ê' else 'e')
  else if key == KI then some 'i'
  else if key == KO then some (if t == 1 then 'ô' else if t == 2 then 'ơ' else 'o')
  else if key == KU then some (if t == 2 then 'ư' else 'u')
  else if key == KY then some 'y'
  else none

/-- Translated from `apply_mark` in chars.rs. -/
def apply_mark (base : Char) (m : Nat) : Char :=
  if m == 0 || m > 5 then base
  else
    match VOWEL_TABLE.find? (fun p => p.1 == base) with
    | some p => (p.2.get? (m - 1)).getD base
    | none => base

/-- The lowercase Vietnamese vowel characters producible by the composer,
in table order. -/
def viLower : List Char :=
  "aáàảãạăắằẳẵặâấầẩẫậeéèẻẽẹêếềểễệiíìỉĩịoóòỏõọôốồổỗộơớờởỡợuúùủũụưứừửữựyýỳỷỹỵ".toList

/-- The Unicode uppercase forms of `viLower`, in the same order. -/
def viUpperL : List Char :=
  "AÁÀẢÃẠĂẮẰẲẴẶÂẤẦẨẪẬEÉÈẺẼẸÊẾỀỂỄỆIÍÌỈĨỊOÓÒỎÕỌÔỐỒỔỖỘƠỚỜỞỠỢUÚÙỦŨỤƯỨỪỬỮỰYÝỲỶỸỴ".toList

/-- Translated from `to_upper` in chars.rs (Rust's Unicode-aware
`to_uppercase`, tabulated on the characters the composer can produce). -/
def to_upper (c : Char) : Char :=
  (((viLower.zip viUpperL).find? (fun p => p.1 == c)).map Prod.snd).getD c

/-- Translated from `to_char` in chars.rs: D maps to d/D directly; otherwise
resolve the base vowel from (key, tone), apply the mark, then the case. -/
def to_char (key : Nat) (caps : Bool) (t m : Nat) : Option Char :=
  if key == KD then some (if caps then 'D' else 'd')
  else
    (get_base_char key t).map (fun b =>
      let marked := apply_mark b m
      if caps then to_upper marked else marked)

/-- Translated from `get_d` in chars.rs. -/
def get_d (caps : Bool) : Char := if caps then 'Đ' else 'đ'

/-! ## Buffer (modelled) -/

/-- Letter record of the buffer, as in the data model: key, caps, tone
modifier, mark, stroke bit.  Freshly pushed records carry no annotations. -/
structure BChar where
  key : Nat
  caps : Bool
  tone : Nat
  mark : Nat
  stroke : Bool
  deriving Repr, DecidableEq

/-- Translated from `Char::new`: a fresh record has no tone, mark or stroke. -/
def BChar.new (key : Nat) (caps : Bool) : BChar :=
  { key := key, caps := caps, tone := 0, mark := 0, stroke := false }

/-- Modelled from the spec: the buffer capacity MAX is 16. -/
def MAX : Nat := 16

/-- Modelled from the spec (buffer, §3): push beyond MAX ignores the new
record (the reference chooses "ignore new"). -/
def push (l : List BChar) (c : BChar) : List BChar :=
  if l.length < MAX then l ++ [c] else l

/-- In-place update of the record at an index, a no-op when the index is out
of range (the `get_mut` pattern of the source). -/
def modifyAt : List BChar → Nat → (BChar → BChar) → List BChar
  | [], _, _ => []
  | c :: rest, 0, f => f c :: rest
  | c :: rest, n + 1, f => c :: modifyAt rest n f

/-- Modelled from the spec: positions of the vowel records in the buffer
(the buffer's `find_vowels`). -/
def find_vowels (l : List BChar) : List Nat :=
  l.enum.filterMap (fun ic => if is_vowel ic.2.key then some ic.1 else none)

/-! ## Input-method tables (modelled) -/

/-- Tone-modifier kind carried by the method tables; horn and breve share the
numeric value 2 used by the composer. -/
inductive ToneType where
  | circumflex
  | horn
  | breve
  deriving DecidableEq, Repr

/-- Numeric tone value, matching the chars.rs constants. -/
def ToneType.value : ToneType → Nat
  | .circumflex => 1
  | .horn => 2
  | .breve => 2

/-- A method table: which keys act as stroke, tone modifier (with its
eligible target letters), mark, or remove. -/
structure Method where
  stroke : Nat → Bool
  tone : Nat → Option ToneType
  tone_targets : Nat → List Nat
  mark : Nat → Option Nat
  remove : Nat → Bool

/-- Modelled from the spec (§4.5): Telex: s/f/r/x/j are the five marks,
a/e/o are circumflex on the same letter, w is horn (or breve) targeting
a/o/u, d is stroke, z is remove. -/
def telexMethod : Method where
  stroke := fun k => k == KD
  tone := fun k =>
    if k == KA || k == KE || k == KO then some .circumflex
    else if k == KW then some .horn
    else none
  tone_targets := fun k =>
    if k == KA then [KA]
    else if k == KE then [KE]
    else if k == KO then [KO]
    else if k == KW then [KA, KO, KU]
    else []
  mark := fun k =>
    if k == KS then some markSAC
    else if k == KF then some markHUYEN
    else if k == KR then some markHOI
    else if k == KX then some markNGA
    else if k == KJ then some markNANG
    else none
  remove := fun k => k == KZ

/-- Modelled from the spec (§4.5): VNI: 1..5 are the five marks, 6 is
circumflex on a/e/o, 7 is horn on o/u, 8 is breve on a, 9 is stroke,
0 is remove. -/
def vniMethod : Method where
  stroke := fun k => k == KN9
  tone := fun k =>
    if k == KN6 then some .circumflex
    else if k == KN7 then some .horn
    else if k == KN8 then some .breve
    else none
  tone_targets := fun k =>
    if k == KN6 then [KA, KE, KO]
    else if k == KN7 then [KO, KU]
    else if k == KN8 then [KA]
    else []
  mark := fun k =>
    if k == KN1 then some markSAC
    else if k == KN2 then some markHUYEN
    else if k == KN3 then some markHOI
    else if k == KN4 then some markNGA
    else if k == KN5 then some markNANG
    else none
  remove := fun k => k == KN0

/-- Modelled from the spec: method ids other than 0 (Telex) and 1 (VNI) are
reserved; modelled as the union of both tables. -/
def allMethod : Method where
  stroke := fun k => telexMethod.stroke k || vniMethod.stroke k
  tone := fun k => (telexMethod.tone k).orElse (fun _ => vniMethod.tone k)
  tone_targets := fun k => telexMethod.tone_targets k ++ vniMethod.tone_targets k
  mark := fun k => (telexMethod.mark k).orElse (fun _ => vniMethod.mark k)
  remove := fun k => telexMethod.remove k || vniMethod.remove k

/-- The `input::get` dispatch: 0 = Telex, 1 = VNI, others reserved. -/
def input_get (m : Nat) : Method :=
  if m == 0 then telexMethod else if m == 1 then vniMethod else allMethod

/-! ## Phonology (modelled) -/

/-- A vowel of the cluster: its key, its current tone modifier
(0 none / 1 circumflex / 2 horn), and its buffer position. -/
structure Vowel where
  key : Nat
  modifier : Nat
  pos : Nat
  deriving Repr, DecidableEq

/-- Modelled from the spec (§4.3): choose the buffer position that receives
the tone mark.  A `qu-` initial's `u` does not count; a vowel already
carrying a tone modifier wins (rightmost); singletons take it; in a
3-cluster the middle; in a 2-cluster the second when a final consonant
follows, otherwise modern mode puts it on the second vowel exactly for the
open diphthongs oa / oe / uy and on the first vowel otherwise (traditional
mode does the opposite for those diphthongs). -/
def find_tone_position (vowels : List Vowel) (has_final modern has_qu : Bool) : Nat :=
  let vs := if has_qu then
      match vowels with
      | v :: rest => if v.key == KU then rest else vowels
      | [] => []
    else vowels
  match (vs.filter (fun v => v.modifier != 0)).getLast? with
  | some v => v.pos
  | none =>
    match vs with
    | [] => 0
    | [v] => v.pos
    | [v1, v2] =>
      if has_final then v2.pos
      else
        let openD := (v1.key == KO && v2.key == KA) || (v1.key == KO && v2.key == KE)
          || (v1.key == KU && v2.key == KY)
        if modern then (if openD then v2.pos else v1.pos)
        else (if openD then v1.pos else v2.pos)
    | [_, v2, _] => v2.pos
    | l => ((l.getLast?).map Vowel.pos).getD 0

/-! ## Validator (modelled) -/

/-- Vowel letters of the validator's alphabet. -/
def vowelChar (c : Char) : Bool :=
  c == 'a' || c == 'e' || c == 'i' || c == 'o' || c == 'u' || c == 'y'

/-- Modelled from the spec (§4.4): the recognized Vietnamese onsets; f, j, w,
z are never valid initials. -/
def onset_list : List (List Char) :=
  ["b", "c", "ch", "d", "g", "gh", "gi", "h", "k", "kh", "l", "m", "n", "ng",
   "ngh", "nh", "p", "ph", "q", "qu", "r", "s", "t", "th", "tr", "v", "x"].map
    String.toList

/-- Modelled from the spec (§4.4): the attested Vietnamese nuclei over base
letters (one to three vowels). -/
def nucleus_list : List (List Char) :=
  ["a", "e", "i", "o", "u", "y",
   "ai", "ao", "au", "ay", "eo", "eu", "ia", "ie", "iu", "oa", "oe", "oi",
   "oo", "ua", "ue", "ui", "uo", "uu", "uy", "ye",
   "ieu", "oai", "oay", "uay", "uoi", "uou", "uya", "uye", "uyu", "yeu"].map
    String.toList

/-- Modelled from the spec (§4.4): the valid codas. -/
def coda_list : List (List Char) :=
  ["c", "ch", "m", "n", "ng", "nh", "p", "t"].map String.toList

/-- Letter keys map to their lowercase char for the validator; digits and
non-letters have no letter. -/
def key_letter (k : Nat) : Option Char :=
  if k < 26 then some (Char.ofNat (97 + k)) else none

/-- Modelled from the spec (§4.4): a base-letter sequence is a plausible
Vietnamese syllable prefix when it splits as onset ++ nucleus ++ coda with
the onset empty or recognized (a pure-consonant buffer only needs to be a
prefix of a recognized onset), the nucleus a prefix of an attested nucleus
(complete when a coda follows), the coda a prefix of a valid coda, and `q`
demands a following `u`. -/
def is_valid (ks : List Nat) : Bool :=
  let cs := ks.filterMap key_letter
  if cs.length != ks.length then false
  else
    let onset0 := cs.takeWhile (fun c => !vowelChar c)
    let rest0 := cs.drop onset0.length
    let quCase := onset0 == ['q'] && rest0.head? == some 'u'
    let onset := if quCase then ['q', 'u'] else onset0
    let rest := if quCase then rest0.tail else rest0
    let nucleus := rest.takeWhile vowelChar
    let coda := rest.drop nucleus.length
    if coda.any vowelChar then false
    else if nucleus.isEmpty then
      coda.isEmpty && onset_list.any (fun o => onset.isPrefixOf o)
    else if onset == ['q'] then false
    else
      (onset.isEmpty || onset_list.contains onset) &&
      (if coda.isEmpty then nucleus_list.any (fun n => nucleus.isPrefixOf n)
       else nucleus_list.contains nucleus &&
         coda_list.any (fun cd => coda.isPrefixOf cd))

/-! ## Engine (translated from src/core/src/engine/mod.rs) -/

/-- Transform type for revert tracking, from the source. -/
inductive Transform where
  | mark (key : Nat) (val : Nat)
  | tone (key : Nat) (val : Nat)
  | stroke (key : Nat)
  | wAsVowel
  deriving DecidableEq, Repr

/-- Engine result: action (0 none / 1 send / 2 restore), backspace count,
characters to insert. -/
structure Res where
  action : Nat
  backspace : Nat
  chars : List Char
  deriving DecidableEq, Repr

/-- Translated from `Result::none`. -/
def Res.noneR : Res := { action := 0, backspace := 0, chars := [] }

/-- Translated from `Result::send`: the char array is capped at MAX. -/
def Res.send (bs : Nat) (cs : List Char) : Res :=
  { action := 1, backspace := bs, chars := cs.take MAX }

/-- The engine state: buffer, method id, enabled flag, last-transform marker
and (modelled as a plain lookup function) the shortcut table. -/
structure Engine where
  buf : List BChar
  method : Nat
  enabled : Bool
  last_transform : Option Transform
  shortcuts : List Char → Nat → Option (Nat × List Char)

/-- Modelled from the spec: the shortcut table is a pluggable lookup whose
default rule set is implementation-defined; modelled as the empty table. -/
def default_shortcuts : List Char → Nat → Option (Nat × List Char) :=
  fun _ _ => none

/-- Translated from `Engine::new`: empty buffer, Telex, enabled, no marker,
default shortcut table. -/
def Engine.new : Engine :=
  { buf := [], method := 0, enabled := true, last_transform := none,
    shortcuts := default_shortcuts }

/-- Translated from `Engine::set_method`. -/
def set_method (e : Engine) (m : Nat) : Engine := { e with method := m }

/-- Translated from `Engine::set_enabled`: flips the flag and clears the
buffer (only the buffer) on disable. -/
def set_enabled (e : Engine) (b : Bool) : Engine :=
  { e with enabled := b, buf := if b then e.buf else [] }

/-- Translated from `Engine::clear`. -/
def clearEngine (e : Engine) : Engine :=
  { e with buf := [], last_transform := none }

/-- Translated from `Engine::collect_vowels`. -/
def collect_vowels (e : Engine) : List Vowel :=
  e.buf.enum.filterMap (fun ic =>
    if is_vowel ic.2.key then
      some { key := ic.2.key,
             modifier := if ic.2.tone == 1 then 1 else if ic.2.tone == 2 then 2 else 0,
             pos := ic.1 }
    else none)

/-- Helper loop of `Engine::has_uo_compound`: tracks the previous vowel key,
resetting at consonants. -/
def uo_scan : Option Nat → List BChar → Bool
  | _, [] => false
  | prev, c :: rest =>
    if is_vowel c.key then
      match prev with
      | some pk =>
        if (pk == KU && c.key == KO) || (pk == KO && c.key == KU) then true
        else uo_scan (some c.key) rest
      | none => uo_scan (some c.key) rest
    else uo_scan none rest

/-- Translated from `Engine::has_uo_compound`. -/
def has_uo_compound (e : Engine) : Bool := uo_scan none e.buf

/-- Translated from `Engine::has_final_consonant`. -/
def has_final_consonant (e : Engine) (after_pos : Nat) : Bool :=
  (e.buf.drop (after_pos + 1)).any (fun c => is_consonant c.key)

/-- Translated from `Engine::has_qu_initial`: the loop returns at the first
`u` with a predecessor, answering whether that predecessor is `q`. -/
def has_qu_initial (e : Engine) : Bool :=
  match e.buf.enum.find? (fun ic => ic.2.key == KU && ic.1 != 0) with
  | some ic =>
    match e.buf.get? (ic.1 - 1) with
    | some p => p.key == KQ
    | none => false
  | none => false

/-- Translated from `Engine::rebuild_from`: one backspace per buffer record
from the start position, characters composed per record (stroked D, composed
vowel, or raw letter), and a none-result when nothing is emitted. -/
def rebuild_from (e : Engine) (start : Nat) : Res :=
  let pieces := e.buf.enum.drop start
  let output := pieces.filterMap (fun ic =>
    if ic.2.key == KD && ic.2.stroke then some (get_d ic.2.caps)
    else
      match to_char ic.2.key ic.2.caps ic.2.tone ic.2.mark with
      | some ch => some ch
      | none => key_to_char ic.2.key ic.2.caps)
  if output.isEmpty then Res.noneR else Res.send pieces.length output

/-- Translated from `Engine::revert_and_rebuild`: backspace computed before
the new key record is appended; the insert text is the raw key characters
(face values) of the records from the cleared position on, including the new
key. -/
def revert_and_rebuild (e : Engine) (pos : Nat) (key : Nat) (caps : Bool) :
    Res × Engine :=
  let backspace := e.buf.length - pos
  let buf2 := push e.buf (BChar.new key caps)
  let output := (buf2.drop pos).filterMap (fun c => key_to_char c.key c.caps)
  (Res.send backspace output, { e with buf := buf2 })

/-- The right-to-left vowel scan of the revert functions: position of the
rightmost vowel whose attribute (tone or mark, selected by `f`) is set. -/
def find_rev_attr (buf : List BChar) (f : BChar → Nat) : Option Nat :=
  ((find_vowels buf).reverse).find? (fun p =>
    match buf.get? p with
    | some c => f c != 0
    | none => false)

/-- Translated from `Engine::revert_tone`: clear the marker, clear the tone
on the rightmost toned vowel, and revert-rebuild from there. -/
def revert_tone (e : Engine) (key : Nat) (caps : Bool) : Res × Engine :=
  let e1 := { e with last_transform := none }
  match find_rev_attr e1.buf (fun c => c.tone) with
  | some pos =>
    revert_and_rebuild { e1 with buf := modifyAt e1.buf pos (fun c => { c with tone := 0 }) }
      pos key caps
  | none => (Res.noneR, e1)

/-- Translated from `Engine::revert_mark`. -/
def revert_mark (e : Engine) (key : Nat) (caps : Bool) : Res × Engine :=
  let e1 := { e with last_transform := none }
  match find_rev_attr e1.buf (fun c => c.mark) with
  | some pos =>
    revert_and_rebuild { e1 with buf := modifyAt e1.buf pos (fun c => { c with mark := 0 }) }
      pos key caps
  | none => (Res.noneR, e1)

/-- Translated from `Engine::revert_stroke`: clears the marker; requires an
un-stroked D at the position; pushes a new D with the same case and rebuilds
from there. -/
def revert_stroke (e : Engine) (key : Nat) (pos : Nat) : Res × Engine :=
  match e.buf.get? pos with
  | some c =>
    if c.key == KD && !c.stroke then
      (rebuild_from
        { e with last_transform := none, buf := push e.buf (BChar.new key c.caps) } pos,
       { e with last_transform := none, buf := push e.buf (BChar.new key c.caps) })
    else (Res.noneR, { e with last_transform := none })
  | none => (Res.noneR, { e with last_transform := none })

/-- Translated from `Engine::handle_remove`: at the rightmost annotated
vowel, clear the mark if any, else the tone, and rebuild from there. -/
def handle_remove (e : Engine) : Res × Engine :=
  match ((find_vowels e.buf).reverse).find? (fun p =>
      match e.buf.get? p with
      | some c => c.mark != 0 || c.tone != 0
      | none => false) with
  | some pos =>
    match e.buf.get? pos with
    | some c =>
      if c.mark != 0 then
        let e2 := { e with buf := modifyAt e.buf pos (fun c2 => { c2 with mark := 0 }) }
        (rebuild_from e2 pos, e2)
      else
        let e2 := { e with buf := modifyAt e.buf pos (fun c2 => { c2 with tone := 0 }) }
        (rebuild_from e2 pos, e2)
    | none => (Res.noneR, e)
  | none => (Res.noneR, e)

/-- Translated from `Engine::handle_normal_letter`: clear the marker, push a
letter, or clear the buffer for a non-letter. -/
def handle_normal_letter (e : Engine) (key : Nat) (caps : Bool) : Res × Engine :=
  if is_letter key then
    (Res.noneR, { e with last_transform := none, buf := push e.buf (BChar.new key caps) })
  else (Res.noneR, { e with last_transform := none, buf := [] })

/-- Translated from `Engine::try_stroke`: find the leftmost un-stroked D;
revert when the marker matches; otherwise validate only when a vowel is
present, then set the stroke bit and rebuild. -/
def try_stroke (e : Engine) (key : Nat) : Option (Res × Engine) :=
  match e.buf.enum.find? (fun ic => ic.2.key == KD && !ic.2.stroke) with
  | some ic =>
    if e.last_transform = some (Transform.stroke key) then
      some (revert_stroke e key ic.1)
    else if (e.buf.map BChar.key).any is_vowel && !is_valid (e.buf.map BChar.key) then
      none
    else
      some (rebuild_from
          { e with buf := modifyAt e.buf ic.1 (fun c => { c with stroke := true }),
                   last_transform := some (Transform.stroke key) } ic.1,
        { e with buf := modifyAt e.buf ic.1 (fun c => { c with stroke := true }),
                 last_transform := some (Transform.stroke key) })
  | none => none

/-- The tone-revert test of `try_tone`: the marker holds a tone transform on
the same key. -/
def is_tone_revert (lt : Option Transform) (key : Nat) : Bool :=
  match lt with
  | some (Transform.tone lk _) => lk == key
  | _ => false

/-- The mark-revert test of `try_mark`. -/
def is_mark_revert (lt : Option Transform) (key : Nat) : Bool :=
  match lt with
  | some (Transform.mark lk _) => lk == key
  | _ => false

/-- The mark-position computation shared by `try_mark` and
`reposition_mark_if_needed`: collect the cluster, detect a final consonant
and a qu initial, and ask the phonology with the mode flag hardcoded to
`true` (modern), exactly as both source call sites do. -/
def mark_target_pos (e : Engine) : Nat :=
  let vowels := collect_vowels e
  let last_vowel_pos := ((vowels.getLast?).map Vowel.pos).getD 0
  let has_final := has_final_consonant e last_vowel_pos
  let has_qu := has_qu_initial e
  find_tone_position vowels has_final true has_qu

/-- Translated from `Engine::reposition_mark_if_needed`: re-run the phonology
on the current cluster; when the chosen position moved, clear the old mark
and set it at the new position, reporting the old position. -/
def reposition_mark_if_needed (e : Engine) : Option Nat × Engine :=
  match e.buf.enum.find? (fun ic => ic.2.mark != 0) with
  | some ic =>
    if (collect_vowels e).isEmpty then (none, e)
    else if mark_target_pos e ≠ ic.1 then
      (some ic.1,
        { e with
            buf :=
              modifyAt (modifyAt e.buf ic.1 (fun c => { c with mark := 0 }))
                (mark_target_pos e) (fun c => { c with mark := ic.2.mark }) })
    else (none, e)
  | none => (none, e)

/-- The target-collection step of `Engine::try_tone`: both untoned u/o
vowels when the horn hits a u/o compound, else the rightmost untoned vowel
in the method's target set. -/
def tone_target_positions (e : Engine) (tone_type : ToneType)
    (targets : List Nat) : List Nat :=
  let tp0 : List Nat :=
    if tone_type = ToneType.horn && has_uo_compound e then
      e.buf.enum.filterMap (fun ic =>
        if (ic.2.key == KU || ic.2.key == KO) && ic.2.tone == 0 then some ic.1
        else none)
    else []
  if tp0.isEmpty then
    match (e.buf.enum.reverse).find? (fun ic =>
        targets.contains ic.2.key && ic.2.tone == 0) with
    | some ic => [ic.1]
    | none => []
  else tp0

/-- The application step of `Engine::try_tone`: set the tone on every target
position, reposition the mark if needed, and rebuild from the earliest
affected position. -/
def apply_tone (e : Engine) (key : Nat) (tone_val : Nat) (tps : List Nat) :
    Res × Engine :=
  let buf2 := tps.foldl
    (fun b p => modifyAt b p (fun c => { c with tone := tone_val })) e.buf
  let earliest := match tps with
    | [] => 0
    | p :: ps => ps.foldl Nat.min p
  let e2 := { e with buf := buf2,
                     last_transform := some (Transform.tone key tone_val) }
  let rp := reposition_mark_if_needed e2
  let rebuild_pos := match rp.1 with
    | some old => Nat.min earliest old
    | none => earliest
  (rebuild_from rp.2 rebuild_pos, rp.2)

/-- Translated from `Engine::try_tone`: revert on a repeated key; validate;
collect the targets; decline when empty, else apply. -/
def try_tone (e : Engine) (key : Nat) (caps : Bool) (tone_type : ToneType)
    (targets : List Nat) : Option (Res × Engine) :=
  if e.buf.isEmpty then none
  else if is_tone_revert e.last_transform key then some (revert_tone e key caps)
  else
    let buffer_keys := e.buf.map BChar.key
    if !is_valid buffer_keys then none
    else
      let tps := tone_target_positions e tone_type targets
      if tps.isEmpty then none
      else some (apply_tone e key tone_type.value tps)

/-- Translated from `Engine::try_mark`: revert on a repeated key; validate;
pick the phonology position (mode hardcoded to modern) and set the mark
there. -/
def try_mark (e : Engine) (key : Nat) (caps : Bool) (mark_val : Nat) :
    Option (Res × Engine) :=
  if e.buf.isEmpty then none
  else if is_mark_revert e.last_transform key then some (revert_mark e key caps)
  else
    let buffer_keys := e.buf.map BChar.key
    if !is_valid buffer_keys then none
    else
      if (collect_vowels e).isEmpty then none
      else
        let pos := mark_target_pos e
        match e.buf.get? pos with
        | some _ =>
          let e2 := { e with buf := modifyAt e.buf pos (fun c => { c with mark := mark_val }),
                             last_transform := some (Transform.mark key mark_val) }
          some (rebuild_from e2 pos, e2)
        | none => none

/-- The speculative buffer of `Engine::try_w_as_vowel`: push a U record and
set Horn on the last record (which is an existing record when the push was
ignored at capacity). -/
def w_spec_buf (e : Engine) (caps : Bool) : List BChar :=
  modifyAt (push e.buf (BChar.new KU caps)) ((push e.buf (BChar.new KU caps)).length - 1)
    (fun c => { c with tone := 2 })

/-- Translated from `Engine::try_w_as_vowel` (Telex only): revert to the
literal "ww" when the marker says the previous key was the w-as-vowel
transform, leaving the buffer untouched; otherwise build the speculative
buffer, keep it when the keys validate, drop the last record otherwise.
The engine state is returned in both outcomes because the speculative
mutation survives a failed validation when the buffer was full. -/
def try_w_as_vowel (e : Engine) (caps : Bool) : Option Res × Engine :=
  if e.last_transform = some Transform.wAsVowel then
    (some (Res.send 1 [if caps then 'W' else 'w', if caps then 'W' else 'w']),
     { e with last_transform := none })
  else if is_valid ((w_spec_buf e caps).map BChar.key) then
    (some (rebuild_from
        { e with buf := w_spec_buf e caps, last_transform := some Transform.wAsVowel }
        ((w_spec_buf e caps).length - 1)),
     { e with buf := w_spec_buf e caps, last_transform := some Transform.wAsVowel })
  else (none, { e with buf := (w_spec_buf e caps).dropLast })

/-- Translated from `Engine::try_word_boundary_shortcut`: on a non-empty
buffer, look the preserve-case buffer string up in the shortcut table. -/
def try_word_boundary_shortcut (e : Engine) : Res :=
  if e.buf.isEmpty then Res.noneR
  else
    let buffer_str := e.buf.filterMap (fun c => key_to_char c.key c.caps)
    match e.shortcuts buffer_str e.method with
    | some m => Res.send m.1 m.2
    | none => Res.noneR

/-- Translated from `Engine::process`: the ordered transform pipeline --
stroke, tone, mark, remove, Telex w-as-vowel, then normal letter. -/
def process (e : Engine) (key : Nat) (caps : Bool) : Res × Engine :=
  match (if (input_get e.method).stroke key then try_stroke e key else none) with
  | some r => r
  | none =>
    match (match (input_get e.method).tone key with
           | some tt => try_tone e key caps tt ((input_get e.method).tone_targets key)
           | none => none) with
    | some r => r
    | none =>
      match (match (input_get e.method).mark key with
             | some mv => try_mark e key caps mv
             | none => none) with
      | some r => r
      | none =>
        if (input_get e.method).remove key then
          handle_remove { e with last_transform := none }
        else if e.method == 0 && key == KW then
          match try_w_as_vowel e caps with
          | (some r, e2) => (r, e2)
          | (none, e2) => handle_normal_letter e2 key caps
        else handle_normal_letter e key caps

/-- Translated from `Engine::on_key`: disabled or ctrl clears everything and
passes the key through; a word break consults the shortcut table, then
clears; backspace pops; everything else goes to the pipeline. -/
def on_key (e : Engine) (key : Nat) (caps ctrl : Bool) : Res × Engine :=
  if !e.enabled || ctrl then
    (Res.noneR, { e with buf := [], last_transform := none })
  else if is_break key then
    (try_word_boundary_shortcut e, { e with buf := [], last_transform := none })
  else if key == KDELETE then
    (Res.noneR, { e with buf := e.buf.dropLast, last_transform := none })
  else process e key caps

/-! ## Key-sequence driving and the visible screen -/

/-- Run a key sequence (key, caps, ctrl) from the fresh engine. -/
def run_keys (ks : List (Nat × Bool × Bool)) : Engine :=
  ks.foldl (fun e t => (on_key e t.1 t.2.1 t.2.2).2) Engine.new

/-- The sequence of Results an engine emits on a key sequence. -/
def outputs : Engine → List (Nat × Bool × Bool) → List Res
  | _, [] => []
  | e, t :: rest =>
    let p := on_key e t.1 t.2.1 t.2.2
    p.1 :: outputs p.2 rest

/-- One step of the host's virtual screen (the semantics of a `Send`: delete
`backspace` trailing characters, insert `chars`; on a none-result a letter
key is inserted raw). -/
def screen_step (p : List Char × Engine) (t : Nat × Bool) : List Char × Engine :=
  let r := on_key p.2 t.1 t.2 false
  if r.1.action == 1 then
    ((p.1.take (p.1.length - r.1.backspace)) ++ r.1.chars, r.2)
  else if is_letter t.1 then (p.1 ++ (key_to_char t.1 t.2).toList, r.2)
  else (p.1, r.2)

/-- The visible text after typing a (key, caps) sequence on a fresh engine. -/
def type_word (inp : List (Nat × Bool)) : List Char :=
  (inp.foldl screen_step ([], Engine.new)).1

/-- Number of buffer records carrying a nonzero mark. -/
def mark_count (l : List BChar) : Nat := l.countP (fun c => c.mark != 0)

/-- Whether a key is a mark key of the given method. -/
def is_mark_key (m : Nat) (key : Nat) : Bool := ((input_get m).mark key).isSome

/-- Claim C5's wording of the insert text ("the composed characters for
buffer positions pos..end, rendering each record's remaining tone/mark
annotations"), for comparison with what `revert_and_rebuild` emits. -/
def composed_insert_spec (buf : List BChar) (pos : Nat) : List Char :=
  (buf.drop pos).filterMap (fun c =>
    if c.key == KD && c.stroke then some (get_d c.caps)
    else
      match to_char c.key c.caps c.tone c.mark with
      | some ch => some ch
      | none => key_to_char c.key c.caps)

/-- Lowercase keystroke list, for concrete runs. -/
def lks (l : List Nat) : List (Nat × Bool × Bool) := l.map (fun k => (k, false, false))

/-- Lowercase (key, caps) list, for concrete screens. -/
def lcs (l : List Nat) : List (Nat × Bool) := l.map (fun k => (k, false))

/-! ## Helper lemmas -/

theorem dropLast_length_le {α : Type} (l : List α) : l.dropLast.length ≤ l.length := by
  simp [List.length_dropLast]

theorem modifyAt_length (l : List BChar) (i : Nat) (f : BChar → BChar) :
    (modifyAt l i f).length = l.length := by
  induction l generalizing i with
  | nil => rfl
  | cons c rest ih =>
    cases i with
    | zero => rfl
    | succ n => simp [modifyAt, ih]

theorem push_length_le (l : List BChar) (c : BChar) (h : l.length ≤ MAX) :
    (push l c).length ≤ MAX := by
  unfold push
  split
  · simpa using by omega
  · exact h

theorem push_eq_append (l : List BChar) (c : BChar) (h : l.length < MAX) :
    push l c = l ++ [c] := by
  unfold push
  exact if_pos h

theorem foldl_modifyAt_length (f : BChar → BChar) (ps : List Nat) (l : List BChar) :
    (ps.foldl (fun b p => modifyAt b p f) l).length = l.length := by
  induction ps generalizing l with
  | nil => rfl
  | cons p rest ih => simp [List.foldl_cons, ih, modifyAt_length]

theorem mark_count_cons (c : BChar) (l : List BChar) :
    mark_count (c :: l) = mark_count l + (if c.mark ≠ 0 then 1 else 0) := by
  simp only [mark_count, List.countP_cons, bne_iff_ne, ne_eq]

theorem mark_count_append_one (l : List BChar) (c : BChar) :
    mark_count (l ++ [c]) = mark_count l + (if c.mark ≠ 0 then 1 else 0) := by
  simp only [mark_count, List.countP_append, List.countP_cons, List.countP_nil,
    bne_iff_ne, ne_eq]
  split <;> simp_all

theorem mark_count_push_new (l : List BChar) (k : Nat) (cp : Bool) :
    mark_count (push l (BChar.new k cp)) = mark_count l := by
  unfold push
  split
  · simp [mark_count_append_one, BChar.new]
  · rfl

theorem mark_count_modify_le_succ (l : List BChar) (i : Nat) (f : BChar → BChar) :
    mark_count (modifyAt l i f) ≤ mark_count l + 1 := by
  induction l generalizing i with
  | nil => simp [modifyAt, mark_count]
  | cons c rest ih =>
    cases i with
    | zero =>
      simp only [modifyAt, mark_count_cons]
      split <;> split <;> omega
    | succ n =>
      simp only [modifyAt, mark_count_cons]
      have := ih n
      omega

theorem mark_count_modify_preserve (l : List BChar) (i : Nat) (f : BChar → BChar)
    (h : ∀ c, (f c).mark = c.mark) : mark_count (modifyAt l i f) = mark_count l := by
  induction l generalizing i with
  | nil => rfl
  | cons c rest ih =>
    cases i with
    | zero => simp [modifyAt, mark_count_cons, h]
    | succ n => simp [modifyAt, mark_count_cons, ih]

theorem mark_count_modify_clear (l : List BChar) (i : Nat) (f : BChar → BChar)
    (h : ∀ c, (f c).mark = 0) : mark_count (modifyAt l i f) ≤ mark_count l := by
  induction l generalizing i with
  | nil => simp [modifyAt]
  | cons c rest ih =>
    cases i with
    | zero =>
      simp only [modifyAt, mark_count_cons, h]
      split <;> omega
    | succ n =>
      simp only [modifyAt, mark_count_cons]
      have := ih n
      omega

theorem mark_count_modify_clear_marked (l : List BChar) (i : Nat) (f : BChar → BChar)
    (h : ∀ c, (f c).mark = 0) (c : BChar) (hg : l.get? i = some c) (hm : c.mark ≠ 0) :
    mark_count (modifyAt l i f) + 1 ≤ mark_count l := by
  induction l generalizing i with
  | nil => simp at hg
  | cons x rest ih =>
    cases i with
    | zero =>
      simp only [List.get?] at hg
      cases hg
      simp only [modifyAt, mark_count_cons, h, hm]
      simp [hm]
    | succ n =>
      simp only [List.get?] at hg
      simp only [modifyAt, mark_count_cons]
      have := ih n hg
      omega

theorem mark_count_dropLast_le (l : List BChar) :
    mark_count l.dropLast ≤ mark_count l :=
  List.Sublist.countP_le _ (List.dropLast_sublist l)

theorem mark_count_foldl_tone (v : Nat) (ps : List Nat) (l : List BChar) :
    mark_count (ps.foldl (fun b p => modifyAt b p (fun c => { c with tone := v })) l)
      = mark_count l := by
  induction ps generalizing l with
  | nil => rfl
  | cons p rest ih =>
    simp only [List.foldl_cons, ih]
    exact mark_count_modify_preserve l p _ (fun c => rfl)

theorem enumFrom_spec {α : Type} (l : List α) (n i : Nat) (c : α)
    (h : (i, c) ∈ List.enumFrom n l) : n ≤ i ∧ l.get? (i - n) = some c := by
  induction l generalizing n with
  | nil => simp [List.enumFrom] at h
  | cons x rest ih =>
    simp only [List.enumFrom, List.mem_cons] at h
    rcases h with h | h
    · cases h
      simp
    · obtain ⟨h1, h2⟩ := ih (n + 1) h
      refine ⟨by omega, ?_⟩
      have : i - n = (i - (n + 1)) + 1 := by omega
      rw [this]
      simpa using h2

theorem enum_get? {α : Type} (l : List α) (i : Nat) (c : α)
    (h : (i, c) ∈ l.enum) : l.get? i = some c := by
  have := enumFrom_spec l 0 i c h
  simpa using this.2

theorem revert_and_rebuild_buf (e : Engine) (pos key : Nat) (caps : Bool) :
    (revert_and_rebuild e pos key caps).2.buf = push e.buf (BChar.new key caps) := rfl

theorem revert_tone_marks (e : Engine) (key : Nat) (caps : Bool) :
    mark_count (revert_tone e key caps).2.buf ≤ mark_count e.buf := by
  unfold revert_tone
  cases hf : find_rev_attr e.buf (fun c => c.tone) with
  | none => simp [hf]
  | some pos =>
    simp only [hf, revert_and_rebuild_buf, mark_count_push_new]
    exact le_of_eq (mark_count_modify_preserve _ _ _ (fun c => rfl))

theorem revert_mark_marks (e : Engine) (key : Nat) (caps : Bool) :
    mark_count (revert_mark e key caps).2.buf ≤ mark_count e.buf := by
  unfold revert_mark
  cases hf : find_rev_attr e.buf (fun c => c.mark) with
  | none => simp [hf]
  | some pos =>
    simp only [hf, revert_and_rebuild_buf, mark_count_push_new]
    exact mark_count_modify_clear _ _ _ (fun c => rfl)

theorem revert_stroke_marks (e : Engine) (key pos : Nat) :
    mark_count (revert_stroke e key pos).2.buf ≤ mark_count e.buf := by
  unfold revert_stroke
  cases hg : e.buf.get? pos with
  | none => simp [hg]
  | some c =>
    simp only [hg]
    split
    · show mark_count (push e.buf (BChar.new key c.caps)) ≤ mark_count e.buf
      exact le_of_eq (mark_count_push_new _ _ _)
    · simp

theorem handle_remove_marks (e : Engine) :
    mark_count (handle_remove e).2.buf ≤ mark_count e.buf := by
  unfold handle_remove
  split
  · split
    · split
      · exact mark_count_modify_clear _ _ _ (fun c => rfl)
      · exact le_of_eq (mark_count_modify_preserve _ _ _ (fun c => rfl))
    · simp
  · simp

theorem handle_normal_marks (e : Engine) (key : Nat) (caps : Bool) :
    mark_count (handle_normal_letter e key caps).2.buf ≤ mark_count e.buf := by
  unfold handle_normal_letter
  split
  · simp [mark_count_push_new]
  · simp [mark_count]

theorem try_stroke_marks (e : Engine) (key : Nat) (p : Res × Engine)
    (h : try_stroke e key = some p) : mark_count p.2.buf ≤ mark_count e.buf := by
  unfold try_stroke at h
  split at h
  case _ ic hic =>
    split at h
    · cases h
      exact revert_stroke_marks _ _ _
    · split at h
      · cases h
      · cases h
        exact le_of_eq (mark_count_modify_preserve _ _ _ (fun c => rfl))
  · cases h

theorem reposition_marks (e : Engine) :
    mark_count (reposition_mark_if_needed e).2.buf ≤ mark_count e.buf := by
  unfold reposition_mark_if_needed
  cases hf : e.buf.enum.find? (fun ic => ic.2.mark != 0) with
  | none => simp [hf]
  | some ic =>
    have hmem := List.mem_of_find?_eq_some hf
    have hpred := List.find?_some hf
    have hget := enum_get? e.buf ic.1 ic.2 hmem
    have hm : ic.2.mark ≠ 0 := by simpa using hpred
    simp only [hf]
    split
    · simp
    · split
      · have h1 := mark_count_modify_clear_marked e.buf ic.1
          (fun c => { c with mark := 0 }) (fun c => rfl) ic.2 hget hm
        have h2 := mark_count_modify_le_succ
          (modifyAt e.buf ic.1 (fun c => { c with mark := 0 }))
          (mark_target_pos e) (fun c => { c with mark := ic.2.mark })
        show mark_count (modifyAt (modifyAt e.buf ic.1 (fun c => { c with mark := 0 }))
          (mark_target_pos e) (fun c => { c with mark := ic.2.mark })) ≤ mark_count e.buf
        omega
      · simp

theorem apply_tone_marks (e : Engine) (key v : Nat) (tps : List Nat) :
    mark_count (apply_tone e key v tps).2.buf ≤ mark_count e.buf := by
  show mark_count (reposition_mark_if_needed
      { e with buf := tps.foldl (fun b p => modifyAt b p (fun c => { c with tone := v })) e.buf,
               last_transform := some (Transform.tone key v) }).2.buf ≤ mark_count e.buf
  refine le_trans (reposition_marks _) ?_
  exact le_of_eq (mark_count_foldl_tone v tps e.buf)

theorem try_tone_marks (e : Engine) (key : Nat) (caps : Bool) (tt : ToneType)
    (targets : List Nat) (p : Res × Engine)
    (h : try_tone e key caps tt targets = some p) :
    mark_count p.2.buf ≤ mark_count e.buf := by
  unfold try_tone at h
  by_cases h1 : e.buf.isEmpty
  · rw [if_pos h1] at h
    cases h
  · rw [if_neg h1] at h
    by_cases h2 : is_tone_revert e.last_transform key
    · rw [if_pos h2] at h
      have hp := Option.some.inj h
      subst hp
      exact revert_tone_marks _ _ _
    · rw [if_neg h2] at h
      simp only [] at h
      by_cases h3 : is_valid (List.map BChar.key e.buf)
      · rw [if_neg (by simp [h3])] at h
        by_cases h4 : (tone_target_positions e tt targets).isEmpty
        · rw [if_pos h4] at h
          cases h
        · rw [if_neg h4] at h
          have hp := Option.some.inj h
          subst hp
          exact apply_tone_marks _ _ _ _
      · have h3f : is_valid (List.map BChar.key e.buf) = false := by simpa using h3
        rw [h3f] at h
        simp at h

theorem try_mark_marks (e : Engine) (key : Nat) (caps : Bool) (mv : Nat)
    (p : Res × Engine) (h : try_mark e key caps mv = some p) :
    mark_count p.2.buf ≤ mark_count e.buf + 1 := by
  unfold try_mark at h
  by_cases h1 : e.buf.isEmpty
  · rw [if_pos h1] at h
    cases h
  · rw [if_neg h1] at h
    by_cases h2 : is_mark_revert e.last_transform key
    · rw [if_pos h2] at h
      have hp := Option.some.inj h
      subst hp
      exact le_trans (revert_mark_marks _ _ _) (Nat.le_succ _)
    · rw [if_neg h2] at h
      simp only [] at h
      by_cases h3 : is_valid (List.map BChar.key e.buf)
      · rw [if_neg (by simp [h3])] at h
        by_cases h4 : (collect_vowels e).isEmpty
        · rw [if_pos h4] at h
          cases h
        · rw [if_neg h4] at h
          cases hg : e.buf.get? (mark_target_pos e) with
          | none =>
            rw [hg] at h
            cases h
          | some c =>
            rw [hg] at h
            have hp := Option.some.inj h
            subst hp
            exact mark_count_modify_le_succ _ _ _
      · have h3f : is_valid (List.map BChar.key e.buf) = false := by simpa using h3
        rw [h3f] at h
        simp at h

theorem w_spec_buf_marks (e : Engine) (caps : Bool) :
    mark_count (w_spec_buf e caps) = mark_count e.buf := by
  unfold w_spec_buf
  rw [mark_count_modify_preserve _ _ (fun c => { c with tone := 2 }) (fun c => rfl),
    mark_count_push_new]

theorem try_w_marks (e : Engine) (caps : Bool) :
    mark_count (try_w_as_vowel e caps).2.buf ≤ mark_count e.buf := by
  unfold try_w_as_vowel
  split
  · simp
  · split
    · show mark_count (w_spec_buf e caps) ≤ mark_count e.buf
      exact le_of_eq (w_spec_buf_marks e caps)
    · show mark_count ((w_spec_buf e caps).dropLast) ≤ mark_count e.buf
      exact le_trans (mark_count_dropLast_le _) (le_of_eq (w_spec_buf_marks e caps))

/-! ## Length lemmas for each operation -/

theorem revert_tone_len (e : Engine) (key : Nat) (caps : Bool)
    (h : e.buf.length ≤ MAX) : (revert_tone e key caps).2.buf.length ≤ MAX := by
  unfold revert_tone
  cases hf : find_rev_attr e.buf (fun c => c.tone) with
  | none => simpa [hf] using h
  | some pos =>
    simp only [hf, revert_and_rebuild_buf]
    exact push_length_le _ _ (by simpa [modifyAt_length] using h)

theorem revert_mark_len (e : Engine) (key : Nat) (caps : Bool)
    (h : e.buf.length ≤ MAX) : (revert_mark e key caps).2.buf.length ≤ MAX := by
  unfold revert_mark
  cases hf : find_rev_attr e.buf (fun c => c.mark) with
  | none => simpa [hf] using h
  | some pos =>
    simp only [hf, revert_and_rebuild_buf]
    exact push_length_le _ _ (by simpa [modifyAt_length] using h)

theorem revert_stroke_len (e : Engine) (key pos : Nat)
    (h : e.buf.length ≤ MAX) : (revert_stroke e key pos).2.buf.length ≤ MAX := by
  unfold revert_stroke
  cases hg : e.buf.get? pos with
  | none => simpa [hg] using h
  | some c =>
    simp only [hg]
    split
    · show (push e.buf (BChar.new key c.caps)).length ≤ MAX
      exact push_length_le _ _ h
    · simpa using h

theorem handle_remove_len (e : Engine) (h : e.buf.length ≤ MAX) :
    (handle_remove e).2.buf.length ≤ MAX := by
  unfold handle_remove
  split
  · split
    · split
      · simpa [modifyAt_length] using h
      · simpa [modifyAt_length] using h
    · simpa using h
  · simpa using h

theorem handle_normal_len (e : Engine) (key : Nat) (caps : Bool)
    (h : e.buf.length ≤ MAX) : (handle_normal_letter e key caps).2.buf.length ≤ MAX := by
  unfold handle_normal_letter
  split
  · exact push_length_le _ _ h
  · simp [MAX]

theorem try_stroke_len (e : Engine) (key : Nat) (p : Res × Engine)
    (h : try_stroke e key = some p) (hl : e.buf.length ≤ MAX) :
    p.2.buf.length ≤ MAX := by
  unfold try_stroke at h
  split at h
  case _ ic hic =>
    split at h
    · cases h
      exact revert_stroke_len _ _ _ hl
    · split at h
      · cases h
      · cases h
        simpa [modifyAt_length] using hl
  · cases h

theorem reposition_len (e : Engine) (h : e.buf.length ≤ MAX) :
    (reposition_mark_if_needed e).2.buf.length ≤ MAX := by
  unfold reposition_mark_if_needed
  split
  · split
    · simpa using h
    · split
      · simpa [modifyAt_length] using h
      · simpa using h
  · simpa using h

theorem foldl_modifyAt_len (f : BChar → BChar) (ps : List Nat) (l : List BChar)
    (h : l.length ≤ MAX) :
    (ps.foldl (fun b p => modifyAt b p f) l).length ≤ MAX := by
  simpa [foldl_modifyAt_length] using h

theorem apply_tone_len (e : Engine) (key v : Nat) (tps : List Nat)
    (hl : e.buf.length ≤ MAX) : (apply_tone e key v tps).2.buf.length ≤ MAX := by
  show (reposition_mark_if_needed
      { e with buf := tps.foldl (fun b p => modifyAt b p (fun c => { c with tone := v })) e.buf,
               last_transform := some (Transform.tone key v) }).2.buf.length ≤ MAX
  refine reposition_len _ ?_
  simpa [foldl_modifyAt_length] using hl

theorem try_tone_len (e : Engine) (key : Nat) (caps : Bool) (tt : ToneType)
    (targets : List Nat) (p : Res × Engine)
    (h : try_tone e key caps tt targets = some p) (hl : e.buf.length ≤ MAX) :
    p.2.buf.length ≤ MAX := by
  unfold try_tone at h
  by_cases h1 : e.buf.isEmpty
  · rw [if_pos h1] at h
    cases h
  · rw [if_neg h1] at h
    by_cases h2 : is_tone_revert e.last_transform key
    · rw [if_pos h2] at h
      have hp := Option.some.inj h
      subst hp
      exact revert_tone_len _ _ _ hl
    · rw [if_neg h2] at h
      simp only [] at h
      by_cases h3 : is_valid (List.map BChar.key e.buf)
      · rw [if_neg (by simp [h3])] at h
        by_cases h4 : (tone_target_positions e tt targets).isEmpty
        · rw [if_pos h4] at h
          cases h
        · rw [if_neg h4] at h
          have hp := Option.some.inj h
          subst hp
          exact apply_tone_len _ _ _ _ hl
      · have h3f : is_valid (List.map BChar.key e.buf) = false := by simpa using h3
        rw [h3f] at h
        simp at h

theorem try_mark_len (e : Engine) (key : Nat) (caps : Bool) (mv : Nat)
    (p : Res × Engine) (h : try_mark e key caps mv = some p)
    (hl : e.buf.length ≤ MAX) : p.2.buf.length ≤ MAX := by
  unfold try_mark at h
  by_cases h1 : e.buf.isEmpty
  · rw [if_pos h1] at h
    cases h
  · rw [if_neg h1] at h
    by_cases h2 : is_mark_revert e.last_transform key
    · rw [if_pos h2] at h
      have hp := Option.some.inj h
      subst hp
      exact revert_mark_len _ _ _ hl
    · rw [if_neg h2] at h
      simp only [] at h
      by_cases h3 : is_valid (List.map BChar.key e.buf)
      · rw [if_neg (by simp [h3])] at h
        by_cases h4 : (collect_vowels e).isEmpty
        · rw [if_pos h4] at h
          cases h
        · rw [if_neg h4] at h
          cases hg : e.buf.get? (mark_target_pos e) with
          | none =>
            rw [hg] at h
            cases h
          | some c =>
            rw [hg] at h
            have hp := Option.some.inj h
            subst hp
            simpa [modifyAt_length] using hl
      · have h3f : is_valid (List.map BChar.key e.buf) = false := by simpa using h3
        rw [h3f] at h
        simp at h

theorem w_spec_buf_len (e : Engine) (caps : Bool) (hl : e.buf.length ≤ MAX) :
    (w_spec_buf e caps).length ≤ MAX := by
  unfold w_spec_buf
  simpa [modifyAt_length] using push_length_le _ _ hl

theorem try_w_len (e : Engine) (caps : Bool) (hl : e.buf.length ≤ MAX) :
    (try_w_as_vowel e caps).2.buf.length ≤ MAX := by
  unfold try_w_as_vowel
  split
  · simpa using hl
  · split
    · show (w_spec_buf e caps).length ≤ MAX
      exact w_spec_buf_len e caps hl
    · show ((w_spec_buf e caps).dropLast).length ≤ MAX
      exact le_trans (dropLast_length_le _) (w_spec_buf_len e caps hl)

/-! ## Pipeline-level bounds -/

theorem process_marks (e : Engine) (key : Nat) (caps : Bool) :
    mark_count (process e key caps).2.buf ≤
      mark_count e.buf + (if is_mark_key e.method key then 1 else 0) := by
  unfold process
  cases h1 : (if (input_get e.method).stroke key then try_stroke e key else none) with
  | some r =>
    simp only [h1]
    by_cases hs : (input_get e.method).stroke key
    · rw [if_pos hs] at h1
      exact le_trans (try_stroke_marks _ _ _ h1) (Nat.le_add_right _ _)
    · rw [if_neg hs] at h1
      cases h1
  | none =>
    simp only [h1]
    cases h2 : (match (input_get e.method).tone key with
        | some tt => try_tone e key caps tt ((input_get e.method).tone_targets key)
        | none => none) with
    | some r =>
      simp only [h2]
      cases ht : (input_get e.method).tone key with
      | some tt =>
        rw [ht] at h2
        exact le_trans (try_tone_marks _ _ _ _ _ _ h2) (Nat.le_add_right _ _)
      | none =>
        rw [ht] at h2
        cases h2
    | none =>
      simp only [h2]
      cases h3 : (match (input_get e.method).mark key with
          | some mv => try_mark e key caps mv
          | none => none) with
      | some r =>
        simp only [h3]
        cases hm : (input_get e.method).mark key with
        | some mv =>
          rw [hm] at h3
          have hk : is_mark_key e.method key = true := by simp [is_mark_key, hm]
          rw [hk]
          simpa using try_mark_marks _ _ _ _ _ h3
        | none =>
          rw [hm] at h3
          cases h3
      | none =>
        simp only [h3]
        by_cases hr : (input_get e.method).remove key
        · rw [if_pos hr]
          exact le_trans (handle_remove_marks _) (Nat.le_add_right _ _)
        · rw [if_neg hr]
          by_cases hw : (e.method == 0 && key == KW) = true
          · rw [if_pos hw]
            have hbase := try_w_marks e caps
            cases hww : try_w_as_vowel e caps with
            | mk o e2 =>
              rw [hww] at hbase
              cases o with
              | some r => exact le_trans hbase (Nat.le_add_right _ _)
              | none =>
                exact le_trans (le_trans (handle_normal_marks _ _ _) hbase)
                  (Nat.le_add_right _ _)
          · rw [if_neg hw]
            exact le_trans (handle_normal_marks _ _ _) (Nat.le_add_right _ _)

theorem process_len (e : Engine) (key : Nat) (caps : Bool)
    (hl : e.buf.length ≤ MAX) : (process e key caps).2.buf.length ≤ MAX := by
  unfold process
  cases h1 : (if (input_get e.method).stroke key then try_stroke e key else none) with
  | some r =>
    simp only [h1]
    by_cases hs : (input_get e.method).stroke key
    · rw [if_pos hs] at h1
      exact try_stroke_len _ _ _ h1 hl
    · rw [if_neg hs] at h1
      cases h1
  | none =>
    simp only [h1]
    cases h2 : (match (input_get e.method).tone key with
        | some tt => try_tone e key caps tt ((input_get e.method).tone_targets key)
        | none => none) with
    | some r =>
      simp only [h2]
      cases ht : (input_get e.method).tone key with
      | some tt =>
        rw [ht] at h2
        exact try_tone_len _ _ _ _ _ _ h2 hl
      | none =>
        rw [ht] at h2
        cases h2
    | none =>
      simp only [h2]
      cases h3 : (match (input_get e.method).mark key with
          | some mv => try_mark e key caps mv
          | none => none) with
      | some r =>
        simp only [h3]
        cases hm : (input_get e.method).mark key with
        | some mv =>
          rw [hm] at h3
          exact try_mark_len _ _ _ _ _ h3 hl
        | none =>
          rw [hm] at h3
          cases h3
      | none =>
        simp only [h3]
        by_cases hr : (input_get e.method).remove key
        · rw [if_pos hr]
          exact handle_remove_len _ hl
        · rw [if_neg hr]
          by_cases hw : (e.method == 0 && key == KW) = true
          · rw [if_pos hw]
            have hbase := try_w_len e caps hl
            cases hww : try_w_as_vowel e caps with
            | mk o e2 =>
              rw [hww] at hbase
              cases o with
              | some r => exact hbase
              | none => exact handle_normal_len _ _ _ hbase
          · rw [if_neg hw]
            exact handle_normal_len _ _ _ hl

theorem on_key_marks (e : Engine) (key : Nat) (caps ctrl : Bool) :
    mark_count (on_key e key caps ctrl).2.buf ≤
      mark_count e.buf + (if is_mark_key e.method key then 1 else 0) := by
  unfold on_key
  split
  · simp [mark_count]
  · split
    · simp [mark_count]
    · split
      · exact le_trans (mark_count_dropLast_le _) (Nat.le_add_right _ _)
      · exact process_marks _ _ _

theorem on_key_len (e : Engine) (key : Nat) (caps ctrl : Bool)
    (hl : e.buf.length ≤ MAX) : (on_key e key caps ctrl).2.buf.length ≤ MAX := by
  unfold on_key
  split
  · simp [MAX]
  · split
    · simp [MAX]
    · split
      · exact le_trans (dropLast_length_le _) hl
      · exact process_len _ _ _ hl

/-! ## Characterization of the revert output -/

/-- The raw key characters (face values) of a record list, which is what
`revert_and_rebuild` emits. -/
def raw_chars (l : List BChar) : List Char :=
  l.filterMap (fun c => key_to_char c.key c.caps)

theorem raw_chars_append (l₁ l₂ : List BChar) :
    raw_chars (l₁ ++ l₂) = raw_chars l₁ ++ raw_chars l₂ := by
  simp [raw_chars]

theorem raw_chars_one (c : BChar) :
    raw_chars [c] = (key_to_char c.key c.caps).toList := by
  cases h : key_to_char c.key c.caps <;> simp [raw_chars, h]

theorem drop_modifyAt (l : List BChar) (p : Nat) (f : BChar → BChar) :
    (modifyAt l p f).drop p = modifyAt (l.drop p) 0 f := by
  induction l generalizing p with
  | nil => simp [modifyAt]
  | cons c rest ih =>
    cases p with
    | zero => rfl
    | succ n => simpa [modifyAt] using ih n

theorem raw_chars_modify_keycaps (l : List BChar) (i : Nat) (f : BChar → BChar)
    (h : ∀ c, (f c).key = c.key ∧ (f c).caps = c.caps) :
    raw_chars (modifyAt l i f) = raw_chars l := by
  induction l generalizing i with
  | nil => rfl
  | cons c rest ih =>
    cases i with
    | zero => simp [modifyAt, raw_chars, List.filterMap_cons, (h c).1, (h c).2]
    | succ n =>
      simp only [modifyAt, raw_chars, List.filterMap_cons] at ih ⊢
      cases key_to_char c.key c.caps <;> simp [ih n]

theorem find_rev_attr_lt (buf : List BChar) (f : BChar → Nat) (pos : Nat)
    (hf : find_rev_attr buf f = some pos) : pos < buf.length := by
  have hp := List.find?_some hf
  cases hg : buf.get? pos with
  | none => rw [hg] at hp; cases hp
  | some c =>
    obtain ⟨h, _⟩ := List.get?_eq_some.mp hg
    exact h

theorem revert_and_rebuild_spec (e : Engine) (pos key : Nat) (caps : Bool)
    (hpos : pos ≤ e.buf.length) (hlen : e.buf.length < MAX) :
    revert_and_rebuild e pos key caps =
      (Res.send (e.buf.length - pos)
          (raw_chars (e.buf.drop pos) ++ (key_to_char key caps).toList),
       { e with buf := e.buf ++ [BChar.new key caps] }) := by
  unfold revert_and_rebuild
  rw [push_eq_append _ _ hlen]
  have hdrop : (e.buf ++ [BChar.new key caps]).drop pos
      = e.buf.drop pos ++ [BChar.new key caps] := by
    rw [List.drop_append_eq_append_drop]
    have : pos - e.buf.length = 0 := by omega
    rw [this]
    rfl
  show (Res.send (e.buf.length - pos)
      (raw_chars ((e.buf ++ [BChar.new key caps]).drop pos)), _) = _
  rw [hdrop, raw_chars_append, raw_chars_one]
  rfl

theorem revert_tone_spec (e : Engine) (key : Nat) (caps : Bool) (pos : Nat)
    (hf : find_rev_attr e.buf (fun c => c.tone) = some pos)
    (hlen : e.buf.length < MAX) :
    revert_tone e key caps =
      (Res.send (e.buf.length - pos)
          (raw_chars (e.buf.drop pos) ++ (key_to_char key caps).toList),
       { e with last_transform := none,
                buf := modifyAt e.buf pos (fun c => { c with tone := 0 })
                  ++ [BChar.new key caps] }) := by
  have hlt := find_rev_attr_lt _ _ _ hf
  unfold revert_tone
  simp only [hf]
  rw [revert_and_rebuild_spec _ _ _ _ (by simpa [modifyAt_length] using le_of_lt hlt)
    (by simpa [modifyAt_length] using hlen)]
  show (Res.send ((modifyAt e.buf pos (fun c => { c with tone := 0 })).length - pos)
      (raw_chars ((modifyAt e.buf pos (fun c => { c with tone := 0 })).drop pos)
        ++ (key_to_char key caps).toList),
    ({ e with last_transform := none,
              buf := modifyAt e.buf pos (fun c => { c with tone := 0 })
                ++ [BChar.new key caps] } : Engine)) = _
  rw [modifyAt_length, drop_modifyAt,
    raw_chars_modify_keycaps (e.buf.drop pos) 0 (fun c => { c with tone := 0 })
      (fun c => ⟨rfl, rfl⟩)]

theorem revert_mark_spec (e : Engine) (key : Nat) (caps : Bool) (pos : Nat)
    (hf : find_rev_attr e.buf (fun c => c.mark) = some pos)
    (hlen : e.buf.length < MAX) :
    revert_mark e key caps =
      (Res.send (e.buf.length - pos)
          (raw_chars (e.buf.drop pos) ++ (key_to_char key caps).toList),
       { e with last_transform := none,
                buf := modifyAt e.buf pos (fun c => { c with mark := 0 })
                  ++ [BChar.new key caps] }) := by
  have hlt := find_rev_attr_lt _ _ _ hf
  unfold revert_mark
  simp only [hf]
  rw [revert_and_rebuild_spec _ _ _ _ (by simpa [modifyAt_length] using le_of_lt hlt)
    (by simpa [modifyAt_length] using hlen)]
  show (Res.send ((modifyAt e.buf pos (fun c => { c with mark := 0 })).length - pos)
      (raw_chars ((modifyAt e.buf pos (fun c => { c with mark := 0 })).drop pos)
        ++ (key_to_char key caps).toList),
    ({ e with last_transform := none,
              buf := modifyAt e.buf pos (fun c => { c with mark := 0 })
                ++ [BChar.new key caps] } : Engine)) = _
  rw [modifyAt_length, drop_modifyAt,
    raw_chars_modify_keycaps (e.buf.drop pos) 0 (fun c => { c with mark := 0 })
      (fun c => ⟨rfl, rfl⟩)]

/-! ## Theorems -/

/-- C1, counterexample: typing Telex `tuasnf` leaves two records with a
nonzero mark in the buffer (the sắc from `s` stays on `u` while the huyền
from `f` lands on `a` after the final consonant moved the phonology
position), so the at-most-one-mark invariant fails after `f`. -/
theorem mark_uniqueness_violated :
    mark_count (run_keys (lks [KT, KU, KA, KS, KN, KF])).buf = 2 ∧
      ¬ mark_count (run_keys (lks [KT, KU, KA, KS, KN, KF])).buf ≤ 1 := by
  decide

/-- C1, amended: tone-mark uniqueness is not an invariant of mark
application (see the counterexample), but it is preserved by every other
operation: from a buffer with at most one mark, any keystroke leaves at most
two marks, and a keystroke that is not a mark key of the current method
leaves at most one. -/
theorem mark_count_after_key (e : Engine) (key : Nat) (caps ctrl : Bool)
    (h : mark_count e.buf ≤ 1) :
    mark_count (on_key e key caps ctrl).2.buf ≤ 2 ∧
      (is_mark_key e.method key = false →
        mark_count (on_key e key caps ctrl).2.buf ≤ 1) := by
  have hb := on_key_marks e key caps ctrl
  constructor
  · split at hb <;> omega
  · intro hmk
    rw [hmk] at hb
    simp at hb
    omega

/-- Witness for C1's amended theorem at a concrete state and key. -/
theorem mark_count_after_key_witness :
    mark_count Engine.new.buf ≤ 1 ∧
      (mark_count (on_key Engine.new KA false false).2.buf ≤ 2 ∧
        (is_mark_key Engine.new.method KA = false →
          mark_count (on_key Engine.new KA false false).2.buf ≤ 1)) :=
  ⟨by decide, mark_count_after_key Engine.new KA false false (by decide)⟩

/-- C2, counterexample: reach the w-as-vowel state by typing `w`, then
`set_enabled(false); set_enabled(true)`.  Feeding `w` now emits the revert
`Send{1, "ww"}` because the last-transform marker survived the toggle, while
a fresh engine emits `Send{1, "ư"}`: the two engines differ on the very
first key. -/
theorem disable_enable_not_fresh :
    (on_key (set_enabled (set_enabled (run_keys [(KW, false, false)]) false) true)
        KW false false).1
      ≠ (on_key Engine.new KW false false).1 := by
  decide

/-- C2, amended: the disable/enable toggle clears the buffer but preserves
the last-transform marker (and the rest of the configuration); the
fresh-engine equivalence holds exactly when the surviving state already
matches a fresh engine: marker none, Telex method, default shortcut table. -/
theorem disable_enable_reset :
    (∀ e : Engine,
      set_enabled (set_enabled e false) true = { e with buf := [], enabled := true }) ∧
    (∀ e : Engine, e.last_transform = none → e.method = 0 →
      e.shortcuts = default_shortcuts →
      ∀ ks : List (Nat × Bool × Bool),
        outputs (set_enabled (set_enabled e false) true) ks = outputs Engine.new ks) := by
  constructor
  · intro e
    rfl
  · intro e h hm hs ks
    have hres : set_enabled (set_enabled e false) true = Engine.new := by
      cases e
      simp_all [set_enabled, Engine.new]
    rw [hres]

/-- Witness for C2's amended theorem at the fresh engine and the key
sequence `w`. -/
theorem disable_enable_reset_witness :
    (set_enabled (set_enabled Engine.new false) true
        = { Engine.new with buf := [], enabled := true }) ∧
      Engine.new.last_transform = none ∧
      outputs (set_enabled (set_enabled Engine.new false) true) [(KW, false, false)]
        = outputs Engine.new [(KW, false, false)] :=
  ⟨disable_enable_reset.1 Engine.new, rfl,
    disable_enable_reset.2 Engine.new rfl rfl rfl [(KW, false, false)]⟩

/-- C3, counterexample: the engine has no tone-placement mode to select, and
typing Telex `hoas` yields `hoá`, never the `hóa` the claim promises for
traditional mode. -/
theorem hoas_traditional_fails :
    type_word (lcs [KH, KO, KA, KS]) ≠ ['h', 'ó', 'a'] := by
  decide

/-- C3, amended: `try_mark` passes the mode flag as the constant `true`
(modern), so Telex `hoas` always yields `hoá`. -/
theorem hoas_always_modern :
    type_word (lcs [KH, KO, KA, KS]) = ['h', 'o', 'á'] := by
  decide

/-- C4, counterexample: after the Horn special case applied the modifier to
both vowels of the u/o pair (`duow` shows `dươ`), pressing `w` again yields
`dưow`, not the `duow` the claim demands -- only the rightmost vowel's Horn
is removed, the first vowel keeps its modifier. -/
theorem horn_pair_revert_partial :
    type_word (lcs [KD, KU, KO, KW, KW]) = ['d', 'ư', 'o', 'w'] ∧
      (['d', 'ư', 'o', 'w'] : List Char) ≠ ['d', 'u', 'o', 'w'] := by
  decide

/-- C5, counterexample: type Telex `tuojw` (nặng on `u`, then the horn pair
moves the mark to `o`), then press `w` to revert.  The emitted insert text is
the raw `"ow"`, but the composed characters of the rebuilt positions render
the surviving nặng as `"ọw"`: the insert is not the composed rendering the
claim describes. -/
theorem revert_insert_not_composed :
    (on_key (run_keys (lks [KT, KU, KO, KJ, KW])) KW false false).1.chars = ['o', 'w'] ∧
      composed_insert_spec
          (on_key (run_keys (lks [KT, KU, KO, KJ, KW])) KW false false).2.buf 2
        = ['ọ', 'w'] ∧
      (['o', 'w'] : List Char) ≠ ['ọ', 'w'] := by
  decide

/-- C4, amended: pressing the tone key that the last-transform marker
records reverts by clearing the tone on the RIGHTMOST toned vowel only
(whichever keystroke toned it; a Horn pair keeps the first vowel's Horn,
e.g. `duoww` shows `dưow`), emitting a Send whose backspace is the distance
from that vowel to the end and whose insert is the raw letters from that
position plus the literal modifier key. -/
theorem tone_revert_on_key (e : Engine) (key : Nat) (caps : Bool) (v : Nat)
    (tt : ToneType) (pos : Nat)
    (hen : e.enabled = true)
    (hbr : is_break key = false)
    (hdel : (key == KDELETE) = false)
    (hst : (input_get e.method).stroke key = false)
    (hto : (input_get e.method).tone key = some tt)
    (hlt : e.last_transform = some (Transform.tone key v))
    (hne : e.buf.isEmpty = false)
    (hf : find_rev_attr e.buf (fun c => c.tone) = some pos)
    (hlen : e.buf.length < MAX) :
    (on_key e key caps false).1 =
      Res.send (e.buf.length - pos)
        (raw_chars (e.buf.drop pos) ++ (key_to_char key caps).toList) ∧
    (on_key e key caps false).2.buf =
      modifyAt e.buf pos (fun c => { c with tone := 0 }) ++ [BChar.new key caps] ∧
    (on_key e key caps false).2.last_transform = none := by
  have htone : try_tone e key caps tt ((input_get e.method).tone_targets key)
      = some (revert_tone e key caps) := by
    unfold try_tone
    rw [if_neg (by simp [hne]), if_pos (by simp [is_tone_revert, hlt])]
  have hproc : process e key caps = revert_tone e key caps := by
    unfold process
    rw [if_neg (by simp [hst])]
    simp only [hto, htone]
  have hspec := revert_tone_spec e key caps pos hf hlen
  unfold on_key
  rw [if_neg (by simp [hen]), if_neg (by simp [hbr]), if_neg (by simp [hdel]),
    hproc, hspec]
  exact ⟨rfl, rfl, rfl⟩

/-- Witness for C4's amended theorem: the `duow` state (both vowels horned
by the compound rule) reverted by a second `w`. -/
theorem tone_revert_on_key_witness :
    (run_keys (lks [KD, KU, KO, KW])).last_transform
        = some (Transform.tone KW 2) ∧
      find_rev_attr (run_keys (lks [KD, KU, KO, KW])).buf (fun c => c.tone)
        = some 2 ∧
      (on_key (run_keys (lks [KD, KU, KO, KW])) KW false false).1 =
        Res.send ((run_keys (lks [KD, KU, KO, KW])).buf.length - 2)
          (raw_chars ((run_keys (lks [KD, KU, KO, KW])).buf.drop 2)
            ++ (key_to_char KW false).toList) :=
  ⟨by decide, by decide,
    (tone_revert_on_key (run_keys (lks [KD, KU, KO, KW])) KW false 2
      ToneType.horn 2 (by decide) (by decide) (by decide) (by decide) (by decide)
      (by decide) (by decide) (by decide) (by decide)).1⟩

/-- C5, amended: on a mark or tone revert the emitted Send's backspace is
the buffer length minus the cleared position, computed before the new key
record is appended, and its insert text is the RAW key characters (face
values, remaining tone/mark annotations dropped) of the records from the
cleared position to the end, including the newly appended key. -/
theorem revert_send_raw :
    (∀ (e : Engine) (key : Nat) (caps : Bool) (pos : Nat),
      find_rev_attr e.buf (fun c => c.mark) = some pos →
      e.buf.length < MAX →
      (revert_mark e key caps).1 =
        Res.send (e.buf.length - pos)
          (raw_chars (e.buf.drop pos) ++ (key_to_char key caps).toList)) ∧
    (∀ (e : Engine) (key : Nat) (caps : Bool) (pos : Nat),
      find_rev_attr e.buf (fun c => c.tone) = some pos →
      e.buf.length < MAX →
      (revert_tone e key caps).1 =
        Res.send (e.buf.length - pos)
          (raw_chars (e.buf.drop pos) ++ (key_to_char key caps).toList)) := by
  constructor
  · intro e key caps pos hf hlen
    rw [revert_mark_spec e key caps pos hf hlen]
  · intro e key caps pos hf hlen
    rw [revert_tone_spec e key caps pos hf hlen]

/-- Witness for C5's amended theorem: the `tuas` state (sắc on `u`)
reverted... applied at the concrete mark-revert of key `f`. -/
theorem revert_send_raw_witness :
    find_rev_attr (run_keys (lks [KT, KU, KA, KS])).buf (fun c => c.mark)
        = some 1 ∧
      (run_keys (lks [KT, KU, KA, KS])).buf.length < MAX ∧
      (revert_mark (run_keys (lks [KT, KU, KA, KS])) KS false).1 =
        Res.send ((run_keys (lks [KT, KU, KA, KS])).buf.length - 1)
          (raw_chars ((run_keys (lks [KT, KU, KA, KS])).buf.drop 1)
            ++ (key_to_char KS false).toList) :=
  ⟨by decide, by decide,
    revert_send_raw.1 (run_keys (lks [KT, KU, KA, KS])) KS false 1
      (by decide) (by decide)⟩

/-- C6: typing `ddd` on a fresh Telex engine yields the visible text `đd`,
not the `dd` of the specified revert: after `dd` strokes the only D, the
buffer holds no un-stroked D, so `try_stroke` never reaches its revert
branch and the third `d` is appended raw. -/
theorem ddd_visible_text :
    type_word (lcs [KD, KD, KD]) = ['đ', 'd'] ∧
      (['đ', 'd'] : List Char) ≠ ['d', 'd'] := by
  decide

/-- C8: the stroke transform's validator policy.  First conjunct: with an
un-stroked D found and no vowel in the buffer, `try_stroke` applies the
stroke with no validity hypothesis at all (the validator is not consulted).
Second conjunct: with a vowel present and the current base-letter sequence
invalid, `try_stroke` declines silently. -/
theorem stroke_validator_policy :
    (∀ (e : Engine) (key : Nat) (ic : Nat × BChar),
      e.buf.enum.find? (fun p => p.2.key == KD && !p.2.stroke) = some ic →
      ¬ e.last_transform = some (Transform.stroke key) →
      (e.buf.map BChar.key).any is_vowel = false →
      try_stroke e key =
        some (rebuild_from
            { e with buf := modifyAt e.buf ic.1 (fun c => { c with stroke := true }),
                     last_transform := some (Transform.stroke key) } ic.1,
          { e with buf := modifyAt e.buf ic.1 (fun c => { c with stroke := true }),
                   last_transform := some (Transform.stroke key) })) ∧
    (∀ (e : Engine) (key : Nat) (ic : Nat × BChar),
      e.buf.enum.find? (fun p => p.2.key == KD && !p.2.stroke) = some ic →
      ¬ e.last_transform = some (Transform.stroke key) →
      (e.buf.map BChar.key).any is_vowel = true →
      is_valid (e.buf.map BChar.key) = false →
      try_stroke e key = none) := by
  constructor
  · intro e key ic hfind hlast hv
    unfold try_stroke
    simp only [hfind]
    rw [if_neg hlast, if_neg (by simp [hv])]
  · intro e key ic hfind hlast hv hval
    unfold try_stroke
    simp only [hfind]
    rw [if_neg hlast, if_pos (by simp [hv, hval])]

/-- Witness for C8: the pre-vowel state `d` (stroke applies with no
validation) and the post-vowel state `ad` (invalid `a`+coda-`d`, stroke
declines). -/
theorem stroke_validator_policy_witness :
    (run_keys [(KD, false, false)]).buf.enum.find?
        (fun p => p.2.key == KD && !p.2.stroke) = some (0, BChar.new KD false) ∧
      ((run_keys [(KD, false, false)]).buf.map BChar.key).any is_vowel = false ∧
      (try_stroke (run_keys [(KD, false, false)]) KD).isSome = true ∧
      is_valid ((run_keys (lks [KA, KD])).buf.map BChar.key) = false ∧
      try_stroke (run_keys (lks [KA, KD])) KD = none :=
  ⟨by decide, by decide,
    by rw [stroke_validator_policy.1 (run_keys [(KD, false, false)]) KD
        (0, BChar.new KD false) (by decide) (by decide) (by decide)]; rfl,
    by decide,
    stroke_validator_policy.2 (run_keys (lks [KA, KD])) KD
      (1, BChar.new KD false) (by decide) (by decide) (by decide) (by decide)⟩

/-- C9, amended: a keycode that is not a letter, not a word-break, not
backspace, and has no modifier role in the current method returns action
None but CLEARS the buffer (it falls to `handle_normal_letter`'s non-letter
branch). -/
theorem unknown_key_clears (e : Engine) (key : Nat) (caps : Bool)
    (hen : e.enabled = true)
    (hbr : is_break key = false)
    (hdel : (key == KDELETE) = false)
    (hlet : is_letter key = false)
    (hst : (input_get e.method).stroke key = false)
    (hto : (input_get e.method).tone key = none)
    (hmk : (input_get e.method).mark key = none)
    (hrm : (input_get e.method).remove key = false) :
    (on_key e key caps false).1 = Res.noneR ∧ (on_key e key caps false).2.buf = [] := by
  have hk : key ≠ KW := by
    intro hkey
    subst hkey
    simp [is_letter, KW] at hlet
  have hw : (e.method == 0 && key == KW) = false := by
    simp [hk]
  have hproc : process e key caps = handle_normal_letter e key caps := by
    unfold process
    rw [if_neg (by simp [hst])]
    simp only [hto, hmk]
    rw [if_neg (by simp [hrm]), if_neg (by simp [hw])]
  unfold on_key
  rw [if_neg (by simp [hen]), if_neg (by simp [hbr]), if_neg (by simp [hdel]), hproc]
  unfold handle_normal_letter
  rw [if_neg (by simp [hlet])]
  exact ⟨rfl, rfl⟩

/-- Witness for C9's amended theorem: keycode 255 on the state reached by
typing `a`. -/
theorem unknown_key_clears_witness :
    is_letter 255 = false ∧
      (on_key (run_keys [(KA, false, false)]) 255 false false).1 = Res.noneR ∧
      (on_key (run_keys [(KA, false, false)]) 255 false false).2.buf = [] :=
  ⟨by decide,
    unknown_key_clears (run_keys [(KA, false, false)]) 255 false (by decide)
      (by decide) (by decide) (by decide) (by decide) (by decide) (by decide)
      (by decide)⟩

/-- C10: when the marker records a w-as-vowel transform (so every a/o/u in
the buffer carries a tone, as the apply path guarantees) and `w` is pressed
on the Telex engine, the engine emits `Send{backspace = 1, chars = [w, w]}`
while leaving the buffer entirely unchanged -- the speculative horned-U
record stays and no record is added for either `w` -- and clears the
marker. -/
theorem w_as_vowel_revert_frame (e : Engine) (caps : Bool)
    (hen : e.enabled = true) (hm : e.method = 0)
    (hlt : e.last_transform = some Transform.wAsVowel)
    (hba : ∀ c ∈ e.buf, (c.key = KA ∨ c.key = KO ∨ c.key = KU) → c.tone ≠ 0) :
    (on_key e KW caps false).1
        = Res.send 1 [if caps then 'W' else 'w', if caps then 'W' else 'w'] ∧
      (on_key e KW caps false).2.buf = e.buf ∧
      (on_key e KW caps false).2.last_transform = none := by
  have htps : tone_target_positions e ToneType.horn [KA, KO, KU] = [] := by
    have htp0 : (e.buf.enum.filterMap (fun ic =>
        if (ic.2.key == KU || ic.2.key == KO) && ic.2.tone == 0 then some ic.1
        else none)) = [] := by
      rw [List.filterMap_eq_nil_iff]
      intro ic hic
      obtain ⟨i, c⟩ := ic
      have hmem : c ∈ e.buf := List.get?_mem (enum_get? _ _ _ hic)
      have hcond : ¬ ((c.key == KU || c.key == KO) && c.tone == 0) = true := by
        intro hcond
        simp only [Bool.and_eq_true, Bool.or_eq_true, beq_iff_eq] at hcond
        exact hba c hmem (by tauto) hcond.2
      simp only []
      rw [if_neg hcond]
    have hfind : (e.buf.enum.reverse).find? (fun ic =>
        [KA, KO, KU].contains ic.2.key && ic.2.tone == 0) = none := by
      rw [List.find?_eq_none]
      intro ic hic
      obtain ⟨i, c⟩ := ic
      have hmem : c ∈ e.buf :=
        List.get?_mem (enum_get? _ _ _ (List.mem_reverse.mp hic))
      intro hcond
      simp at hcond
      exact hba c hmem (by tauto) hcond.2
    unfold tone_target_positions
    simp only [htp0, hfind]
    simp
  have htone : try_tone e KW caps ToneType.horn [KA, KO, KU] = none := by
    unfold try_tone
    by_cases h1 : e.buf.isEmpty
    · rw [if_pos h1]
    · rw [if_neg h1, if_neg (by simp [is_tone_revert, hlt])]
      simp only []
      by_cases h3 : is_valid (e.buf.map BChar.key)
      · rw [if_neg (by simp [h3]), if_pos (by simp [htps])]
      · have h3f : is_valid (e.buf.map BChar.key) = false := by simpa using h3
        rw [h3f]
        simp
  have hproc : process e KW caps =
      (Res.send 1 [if caps then 'W' else 'w', if caps then 'W' else 'w'],
       { e with last_transform := none }) := by
    unfold process
    rw [hm]
    rw [if_neg (by decide)]
    simp only [show (input_get 0).tone KW = some ToneType.horn from rfl,
      show (input_get 0).tone_targets KW = [KA, KO, KU] from rfl, htone,
      show (input_get 0).mark KW = none from rfl]
    rw [if_neg (by decide), if_pos (by decide)]
    unfold try_w_as_vowel
    rw [if_pos hlt]
    simp [hm]
  unfold on_key
  rw [if_neg (by simp [hen]), if_neg (by decide), if_neg (by decide), hproc]
  exact ⟨rfl, rfl, rfl⟩

/-- Witness for C10 at the state reached by typing `w` on a fresh engine
(the buffer holds exactly the speculative horned U). -/
theorem w_as_vowel_revert_frame_witness :
    (run_keys [(KW, false, false)]).last_transform = some Transform.wAsVowel ∧
      (on_key (run_keys [(KW, false, false)]) KW false false).1
          = Res.send 1 ['w', 'w'] ∧
      (on_key (run_keys [(KW, false, false)]) KW false false).2.buf
          = (run_keys [(KW, false, false)]).buf :=
  ⟨by decide,
    (w_as_vowel_revert_frame (run_keys [(KW, false, false)]) false (by decide)
        (by decide) (by decide) (by decide)).1,
    (w_as_vowel_revert_frame (run_keys [(KW, false, false)]) false (by decide)
        (by decide) (by decide) (by decide)).2.1⟩

/-- Auxiliary induction for the buffer bound: the fold of `on_key` keeps the
buffer within capacity. -/
theorem run_len_aux (ks : List (Nat × Bool × Bool)) :
    ∀ e : Engine, e.buf.length ≤ MAX →
      (ks.foldl (fun e t => (on_key e t.1 t.2.1 t.2.2).2) e).buf.length ≤ MAX := by
  induction ks with
  | nil => intro e h; simpa using h
  | cons t rest ih =>
    intro e h
    exact ih _ (on_key_len _ _ _ _ h)

/-- C7: for every key sequence (arbitrary keycodes, caps and ctrl flags) fed
to a fresh engine, the buffer length never exceeds MAX = 16.  (Totality and
absence of panics hold by construction: every operation is a total
function.) -/
theorem buffer_length_bounded (ks : List (Nat × Bool × Bool)) :
    (run_keys ks).buf.length ≤ MAX :=
  run_len_aux ks Engine.new (by simp [Engine.new])

/-- C9, counterexample: with `a` buffered, a keycode that is neither letter,
word-break nor backspace (and has no modifier role) returns action None but
CLEARS the buffer instead of leaving it unchanged. -/
theorem unknown_key_not_ignored :
    (on_key (run_keys [(KA, false, false)]) 255 false false).2.buf = [] ∧
      (run_keys [(KA, false, false)]).buf ≠ [] ∧
      (on_key (run_keys [(KA, false, false)]) 255 false false).1 = Res.noneR := by
  decide

end Gonhanh
